import Mathlib

/-- Working registers of the MD5 engine: the four 32-bit accumulators
a_, b_, c_, d_ of the C++ class, modelled as naturals kept below 2^32. -/
structure Regs where
  a : Nat
  b : Nat
  c : Nat
  d : Nat
deriving Repr, DecidableEq

/-- Full engine state: accumulators, total_len_ (uint64_t, so arithmetic on it
is taken mod 2^64) and the pending buffer (buffer_ together with buffer_len_,
modelled as a list whose length is buffer_len_). -/
structure MD5State where
  regs : Regs
  total_len : Nat
  buffer : List Nat
deriving Repr, DecidableEq

/-- MD5::reset — the RFC 1321 initial state. -/
def MD5.reset : MD5State :=
  { regs := { a := 0x67452301, b := 0xefcdab89, c := 0x98badcfe, d := 0x10325476 },
    total_len := 0, buffer := [] }

/-- MD5::read_le32 — little-endian 32-bit word from the first four bytes. -/
def MD5.read_le32 (p : List Nat) : Nat :=
  p.getD 0 0 ||| (p.getD 1 0 <<< 8) ||| (p.getD 2 0 <<< 16) ||| (p.getD 3 0 <<< 24)

/-- MD5::write_le32 — the four little-endian bytes of a 32-bit word. -/
def MD5.write_le32 (v : Nat) : List Nat :=
  [v &&& 0xFF, (v >>> 8) &&& 0xFF, (v >>> 16) &&& 0xFF, (v >>> 24) &&& 0xFF]

/-- F(x,y,z) = (x AND y) OR (NOT x AND z); 32-bit complement is XOR 0xFFFFFFFF. -/
def MD5.F (x y z : Nat) : Nat := (x &&& y) ||| ((x ^^^ 0xFFFFFFFF) &&& z)

def MD5.G (x y z : Nat) : Nat := (x &&& z) ||| (y &&& (z ^^^ 0xFFFFFFFF))

def MD5.H (x y z : Nat) : Nat := x ^^^ y ^^^ z

def MD5.I (x y z : Nat) : Nat := y ^^^ (x ||| (z ^^^ 0xFFFFFFFF))

/-- rotl(v,s) = (v << s) | (v >> (32-s)) on uint32: the left shift wraps mod 2^32. -/
def MD5.rotl (v s : Nat) : Nat := ((v <<< s) % 2 ^ 32) ||| (v >>> (32 - s))

/-- Per-round shift amounts S[64]. -/
def MD5.S : List Nat :=
  [7,12,17,22, 7,12,17,22, 7,12,17,22, 7,12,17,22,
   5, 9,14,20, 5, 9,14,20, 5, 9,14,20, 5, 9,14,20,
   4,11,16,23, 4,11,16,23, 4,11,16,23, 4,11,16,23,
   6,10,15,21, 6,10,15,21, 6,10,15,21, 6,10,15,21]

/-- Round constants K[64]. -/
def MD5.K : List Nat :=
  [0xd76aa478,0xe8c7b756,0x242070db,0xc1bdceee,0xf57c0faf,0x4787c62a,0xa8304613,0xfd469501,
   0x698098d8,0x8b44f7af,0xffff5bb1,0x895cd7be,0x6b901122,0xfd987193,0xa679438e,0x49b40821,
   0xf61e2562,0xc040b340,0x265e5a51,0xe9b6c7aa,0xd62f105d,0x02441453,0xd8a1e681,0xe7d3fbc8,
   0x21e1cde6,0xc33707d6,0xf4d50d87,0x455a14ed,0xa9e3e905,0xfcefa3f8,0x676f02d9,0x8d2a4c8a,
   0xfffa3942,0x8771f681,0x6d9d6122,0xfde5380c,0xa4beea44,0x4bdecfa9,0xf6bb4b60,0xbebfbc70,
   0x289b7ec6,0xeaa127fa,0xd4ef3085,0x04881d05,0xd9d4d039,0xe6db99e5,0x1fa27cf8,0xc4ac5665,
   0xf4292244,0x432aff97,0xab9423a7,0xfc93a039,0x655b59c3,0x8f0ccc92,0xffeff47d,0x85845dd1,
   0x6fa87e4f,0xfe2ce6e0,0xa3014314,0x4e0811a1,0xf7537e82,0xbd3af235,0x2ad7d2bb,0xeb86d391]

/-- One iteration of the 64-round loop of MD5::transform at round index i,
on working registers (A,B,C,D), with M the sixteen message words. -/
def MD5.round (M : List Nat) (st : Regs) (i : Nat) : Regs :=
  let f : Nat :=
    if i < 16 then MD5.F st.b st.c st.d
    else if i < 32 then MD5.G st.b st.c st.d
    else if i < 48 then MD5.H st.b st.c st.d
    else MD5.I st.b st.c st.d
  let g : Nat :=
    if i < 16 then i
    else if i < 32 then (5 * i + 1) &&& 15
    else if i < 48 then (3 * i + 5) &&& 15
    else (7 * i) &&& 15
  let sum := (st.a + f + MD5.K.getD i 0 + M.getD g 0) % 2 ^ 32
  { a := st.d, b := (st.b + MD5.rotl sum (MD5.S.getD i 0)) % 2 ^ 32, c := st.b, d := st.c }

/-- MD5::transform — compress one 64-byte block into the accumulators. -/
def MD5.transform (r : Regs) (block : List Nat) : Regs :=
  let M := (List.range 16).map fun i => MD5.read_le32 (block.drop (4 * i))
  let w := (List.range 64).foldl (MD5.round M) r
  { a := (r.a + w.a) % 2 ^ 32, b := (r.b + w.b) % 2 ^ 32,
    c := (r.c + w.c) % 2 ^ 32, d := (r.d + w.d) % 2 ^ 32 }

/-- Body of the while loop of MD5::update, with an explicit bound on the
number of iterations so that the definition is structurally recursive and
computes by reduction: each pass consumes one leading 64-byte block. -/
def MD5.absorbGo : Nat → Regs → List Nat → Regs × List Nat
  | 0, r, bs => (r, bs)
  | fuel + 1, r, bs =>
      if 64 ≤ bs.length then
        MD5.absorbGo fuel (MD5.transform r (bs.take 64)) (bs.drop 64)
      else (r, bs)

/-- The while loop of MD5::update: consume leading full 64-byte blocks,
returning the updated registers and the remainder (shorter than 64 bytes).
The list length bounds the number of loop iterations. -/
def MD5.absorbBlocks (r : Regs) (bs : List Nat) : Regs × List Nat :=
  MD5.absorbGo bs.length r bs

/-- MD5::update — absorb a byte sequence, buffering partial blocks. -/
def MD5.update (s : MD5State) (bs : List Nat) : MD5State :=
  let total : Nat := (s.total_len + bs.length) % 2 ^ 64
  let fill : Regs × List Nat × List Nat :=
    if 0 < s.buffer.length then
      let to_copy := min bs.length (64 - s.buffer.length)
      let nb := s.buffer ++ bs.take to_copy
      let rest := bs.drop to_copy
      if nb.length = 64 then (MD5.transform s.regs nb, [], rest)
      else (s.regs, nb, rest)
    else (s.regs, [], bs)
  let p := MD5.absorbBlocks fill.1 fill.2.2
  { regs := p.1, total_len := total,
    buffer := if 0 < p.2.length then p.2 else fill.2.1 }

/-- The 8 little-endian bytes of the 64-bit bit length appended by finalize. -/
def MD5.lenBytes (bit_len : Nat) : List Nat :=
  (List.range 8).map fun i => (bit_len >>> (8 * i)) &&& 0xFF

/-- The padding sequence built by MD5::finalize: 0x80, then need_zeroes zero
bytes with need_zeroes = 56 - cur_mod (or 56 + 64 - cur_mod), then the 8-byte
little-endian bit length. -/
def MD5.pad (s : MD5State) : List Nat :=
  let bit_len := (s.total_len * 8) % 2 ^ 64
  let cur_mod := s.buffer.length % 64
  let need_zeroes := if cur_mod ≤ 56 then 56 - cur_mod else 56 + 64 - cur_mod
  0x80 :: (List.replicate need_zeroes 0 ++ MD5.lenBytes bit_len)

/-- MD5::finalize — feed the padding, read out the digest, reset the engine.
Returns the 16-byte digest together with the post-call state. -/
def MD5.finalize (s : MD5State) : List Nat × MD5State :=
  let s1 := MD5.update s (MD5.pad s)
  (MD5.write_le32 s1.regs.a ++ MD5.write_le32 s1.regs.b ++
     MD5.write_le32 s1.regs.c ++ MD5.write_le32 s1.regs.d,
   MD5.reset)

/-- MD5::digest — one-shot helper: fresh engine, update, finalize. -/
def MD5.digest (bs : List Nat) : List Nat :=
  (MD5.finalize (MD5.update MD5.reset bs)).1

/-- The character table of MD5::hex, taken from the same string literal the
source uses. -/
def MD5.hexd : List Char :=
  "0123456789abcdef".data

/-- The two hex characters of one byte: high nibble first. -/
def MD5.byteHex (b : Nat) : List Char :=
  [MD5.hexd.getD ((b >>> 4) &&& 0xF) '0', MD5.hexd.getD (b &&& 0xF) '0']

/-- MD5::hex — render a digest as lowercase hexadecimal, two digits per byte. -/
def MD5.hex (d : List Nat) : String :=
  ⟨d.flatMap MD5.byteHex⟩


/-- Value of one lowercase hexadecimal character, as used when decoding a
rendered digest byte-by-byte. -/
def hexVal (c : Char) : Nat :=
  if '0' ≤ c ∧ c ≤ '9' then c.toNat - '0'.toNat
  else if 'a' ≤ c ∧ c ≤ 'f' then c.toNat - 'a'.toNat + 10
  else 0

/-- Decode a hex character list two characters at a time, high nibble first. -/
def hexDecodeChars : List Char → List Nat
  | c1 :: c2 :: rest => (16 * hexVal c1 + hexVal c2) :: hexDecodeChars rest
  | _ => []

/-- Decode a hexadecimal string into the byte list it renders. -/
def hexDecode (s : String) : List Nat :=
  hexDecodeChars s.data

/-- States reachable between public calls: any sequence of reset, update and
finalize starting from a fresh engine. Reset lands in MD5.reset, which is
also the initial state, so one constructor covers construction and reset. -/
inductive Reachable : MD5State → Prop
  | init : Reachable MD5.reset
  | update (s : MD5State) (bs : List Nat) : Reachable s → Reachable (MD5.update s bs)
  | finalize (s : MD5State) : Reachable s → Reachable (MD5.finalize s).2

/-- Reachable states paired with the number of raw input bytes passed to
update since the last reset or finalize. -/
inductive ReachableCount : MD5State → Nat → Prop
  | init : ReachableCount MD5.reset 0
  | update (s : MD5State) (n : Nat) (bs : List Nat) :
      ReachableCount s n → ReachableCount (MD5.update s bs) (n + bs.length)
  | finalize (s : MD5State) (n : Nat) :
      ReachableCount s n → ReachableCount (MD5.finalize s).2 0

/-- Collapsing the final remainder copy of update: copying is skipped exactly
when the remainder is empty, so the stored buffer is the remainder either way. -/
theorem list_keep_of_pos (l : List Nat) : (if 0 < l.length then l else []) = l := by
  cases l <;> simp

/-- Update records the new total length first; every branch stores it as is. -/
theorem MD5.update_total_len (s : MD5State) (bs : List Nat) :
    (MD5.update s bs).total_len = (s.total_len + bs.length) % 2 ^ 64 := rfl

/-- The loop body does nothing on fewer than 64 bytes, whatever the bound. -/
theorem MD5.absorbGo_of_lt (fuel : Nat) (r : Regs) (bs : List Nat)
    (h : bs.length < 64) : MD5.absorbGo fuel r bs = (r, bs) := by
  cases fuel with
  | zero => rfl
  | succ n => simp only [MD5.absorbGo, if_neg (by omega : ¬64 ≤ bs.length)]

/-- The block loop does nothing on fewer than 64 bytes. -/
theorem MD5.absorbBlocks_of_lt (r : Regs) (bs : List Nat) (h : bs.length < 64) :
    MD5.absorbBlocks r bs = (r, bs) :=
  MD5.absorbGo_of_lt bs.length r bs h

/-- Any iteration bound at least the list length gives the loop's result. -/
theorem MD5.absorbGo_fuel (fuel : Nat) (r : Regs) (bs : List Nat)
    (h : bs.length ≤ fuel) : MD5.absorbGo fuel r bs = MD5.absorbBlocks r bs := by
  induction fuel using Nat.strong_induction_on generalizing r bs with
  | _ fuel ih =>
    match fuel, h with
    | 0, h =>
      have h0 : bs.length = 0 := by omega
      rw [MD5.absorbBlocks, h0]
    | n + 1, h =>
      by_cases h64 : 64 ≤ bs.length
      · have hlen : bs.length = (bs.length - 1) + 1 := by omega
        rw [MD5.absorbBlocks]
        conv_rhs => rw [hlen]
        simp only [MD5.absorbGo, if_pos h64]
        rw [ih n (by omega) _ _ (by simp only [List.length_drop]; omega),
          ih (bs.length - 1) (by omega) _ _ (by simp only [List.length_drop]; omega)]
      · rw [MD5.absorbGo_of_lt _ _ _ (by omega), MD5.absorbBlocks_of_lt _ _ (by omega)]

/-- The block loop consumes one leading 64-byte block when available. -/
theorem MD5.absorbBlocks_of_le (r : Regs) (bs : List Nat) (h : 64 ≤ bs.length) :
    MD5.absorbBlocks r bs =
      MD5.absorbBlocks (MD5.transform r (bs.take 64)) (bs.drop 64) := by
  have hlen : bs.length = (bs.length - 1) + 1 := by omega
  conv_lhs => rw [MD5.absorbBlocks, hlen]
  simp only [MD5.absorbGo, if_pos h]
  exact MD5.absorbGo_fuel _ _ _ (by simp only [List.length_drop]; omega)

/-- The remainder left by the block loop is always shorter than 64 bytes. -/
theorem MD5.absorbBlocks_snd_lt (r : Regs) (bs : List Nat) :
    (MD5.absorbBlocks r bs).2.length < 64 := by
  by_cases h : 64 ≤ bs.length
  · rw [MD5.absorbBlocks_of_le r bs h]
    exact MD5.absorbBlocks_snd_lt _ _
  · rw [MD5.absorbBlocks_of_lt r bs (by omega)]
    show bs.length < 64
    omega
termination_by bs.length
decreasing_by simp only [List.length_drop]; omega

/-- Resuming the block loop on the remainder plus fresh input is the same as
running it once on the concatenated input. -/
theorem MD5.absorbBlocks_append (r : Regs) (xs ys : List Nat) :
    MD5.absorbBlocks (MD5.absorbBlocks r xs).1 ((MD5.absorbBlocks r xs).2 ++ ys) =
      MD5.absorbBlocks r (xs ++ ys) := by
  by_cases h : 64 ≤ xs.length
  · have hxy : 64 ≤ (xs ++ ys).length := by
      simp only [List.length_append]; omega
    rw [MD5.absorbBlocks_of_le r (xs ++ ys) hxy,
        List.take_append_of_le_length h, List.drop_append_eq_append_drop]
    have h0 : 64 - xs.length = 0 := by omega
    rw [h0, List.drop_zero]
    rw [MD5.absorbBlocks_of_le r xs h]
    exact MD5.absorbBlocks_append _ _ _
  · rw [MD5.absorbBlocks_of_lt r xs (by omega)]
termination_by xs.length
decreasing_by simp only [List.length_drop]; omega

/-- Normal form of MD5::update: on any state whose pending buffer is partial
(shorter than 64 bytes), update behaves like running the block loop on the
buffered bytes followed by the new input, keeping the remainder as the new
buffer. -/
theorem MD5.update_eq_absorb (s : MD5State) (bs : List Nat) (h : s.buffer.length < 64) :
    MD5.update s bs =
      { regs := (MD5.absorbBlocks s.regs (s.buffer ++ bs)).1,
        total_len := (s.total_len + bs.length) % 2 ^ 64,
        buffer := (MD5.absorbBlocks s.regs (s.buffer ++ bs)).2 } := by
  by_cases hb : 0 < s.buffer.length
  · by_cases hsmall : bs.length < 64 - s.buffer.length
    · have hmin : min bs.length (64 - s.buffer.length) = bs.length := by omega
      have hne : ¬((s.buffer ++ bs).length = 64) := by
        simp only [List.length_append]; omega
      have habs : MD5.absorbBlocks s.regs (s.buffer ++ bs) = (s.regs, s.buffer ++ bs) :=
        MD5.absorbBlocks_of_lt _ _ (by simp only [List.length_append]; omega)
      have hnil : MD5.absorbBlocks s.regs [] = (s.regs, []) :=
        MD5.absorbBlocks_of_lt _ _ (by simp)
      simp only [MD5.update, hb, if_true, hmin, List.take_length, List.drop_length,
        hne, if_false, hnil, habs, List.length_nil, Nat.lt_irrefl, ite_false]
    · have hmin : min bs.length (64 - s.buffer.length) = 64 - s.buffer.length := by omega
      have h64 : (s.buffer ++ bs.take (64 - s.buffer.length)).length = 64 := by
        simp only [List.length_append, List.length_take]; omega
      have hge : 64 ≤ (s.buffer ++ bs).length := by
        simp only [List.length_append]; omega
      have htk : (s.buffer ++ bs).take 64 = s.buffer ++ bs.take (64 - s.buffer.length) := by
        rw [List.take_append_eq_append_take, List.take_of_length_le (by omega)]
      have hdr : (s.buffer ++ bs).drop 64 = bs.drop (64 - s.buffer.length) := by
        rw [List.drop_append_eq_append_drop, List.drop_eq_nil_of_le (by omega),
          List.nil_append]
      rw [MD5.absorbBlocks_of_le s.regs (s.buffer ++ bs) hge, htk, hdr]
      simp only [MD5.update, hb, if_true, hmin, h64, if_true, list_keep_of_pos]
  · have hnil : s.buffer = [] := List.eq_nil_of_length_eq_zero (by omega)
    simp [MD5.update, hnil, list_keep_of_pos]

/-- Update leaves the pending buffer shorter than 64 bytes. -/
theorem MD5.update_buffer_lt (s : MD5State) (bs : List Nat) (h : s.buffer.length < 64) :
    (MD5.update s bs).buffer.length < 64 := by
  rw [MD5.update_eq_absorb s bs h]
  exact MD5.absorbBlocks_snd_lt _ _

/-- Update keeps total_len below 2^64, as the C++ uint64_t does. -/
theorem MD5.update_total_lt (s : MD5State) (bs : List Nat) :
    (MD5.update s bs).total_len < 2 ^ 64 := by
  rw [MD5.update_total_len]
  exact Nat.mod_lt _ (by positivity)

/-- Both state invariants hold in every reachable state. -/
theorem MD5.reach_inv (s : MD5State) (h : Reachable s) :
    s.buffer.length < 64 ∧ s.total_len < 2 ^ 64 := by
  induction h with
  | init => refine ⟨by simp [MD5.reset], by simp [MD5.reset]⟩
  | update s bs _ ih => exact ⟨MD5.update_buffer_lt s bs ih.1, MD5.update_total_lt s bs⟩
  | finalize s _ _ => refine ⟨by simp [MD5.finalize, MD5.reset], by simp [MD5.finalize, MD5.reset]⟩

/-- Updating with the empty sequence is a no-op on well-formed states. -/
theorem MD5.update_nil (s : MD5State) (hb : s.buffer.length < 64)
    (ht : s.total_len < 2 ^ 64) : MD5.update s [] = s := by
  have h2 : (s.total_len + ([] : List Nat).length) % 2 ^ 64 = s.total_len := by
    simpa using Nat.mod_eq_of_lt ht
  rw [MD5.update_eq_absorb s [] hb, List.append_nil,
    MD5.absorbBlocks_of_lt s.regs s.buffer hb, h2]

/-- Two successive updates are one update on the concatenated input. -/
theorem MD5.update_append (s : MD5State) (xs ys : List Nat)
    (hb : s.buffer.length < 64) :
    MD5.update (MD5.update s xs) ys = MD5.update s (xs ++ ys) := by
  rw [MD5.update_eq_absorb s xs hb]
  rw [MD5.update_eq_absorb _ ys (MD5.absorbBlocks_snd_lt s.regs (s.buffer ++ xs))]
  rw [MD5.update_eq_absorb s (xs ++ ys) hb]
  simp only [MD5.absorbBlocks_append, MD5State.mk.injEq]
  refine ⟨by rw [List.append_assoc], ?_, by rw [List.append_assoc]⟩
  simp only [Nat.mod_add_mod, List.length_append, Nat.add_assoc]

/-- Folding update over pieces equals one update on their concatenation. -/
theorem MD5.foldl_update (pieces : List (List Nat)) (s : MD5State)
    (hb : s.buffer.length < 64) (ht : s.total_len < 2 ^ 64) :
    List.foldl MD5.update s pieces = MD5.update s pieces.flatten := by
  induction pieces generalizing s with
  | nil => simp [MD5.update_nil s hb ht]
  | cons p ps ih =>
      simp only [List.foldl_cons, List.flatten_cons]
      rw [ih (MD5.update s p) (MD5.update_buffer_lt s p hb) (MD5.update_total_lt s p)]
      exact MD5.update_append s p ps.flatten hb

/-- Each hex-rendered byte contributes exactly two characters. -/
theorem MD5.byteHex_length (b : Nat) : (MD5.byteHex b).length = 2 := rfl

/-- The hex rendering of a byte list has twice as many characters as bytes. -/
theorem MD5.length_hex_chars (d : List Nat) :
    (d.flatMap MD5.byteHex).length = 2 * d.length := by
  induction d with
  | nil => rfl
  | cons b t ih =>
      simp only [List.flatMap_cons, List.length_append, ih, MD5.byteHex_length,
        List.length_cons]
      omega

set_option maxRecDepth 2000 in
/-- Every entry of the character table is a lowercase hex character. -/
theorem MD5.hexd_char_class : ∀ m : Nat, m < 16 →
    ('0' ≤ MD5.hexd.getD m '0' ∧ MD5.hexd.getD m '0' ≤ '9') ∨
    ('a' ≤ MD5.hexd.getD m '0' ∧ MD5.hexd.getD m '0' ≤ 'f') := by decide

/-- Both characters emitted for a byte are lowercase hex characters. -/
theorem MD5.byteHex_char_class (b : Nat) (c : Char) (hc : c ∈ MD5.byteHex b) :
    ('0' ≤ c ∧ c ≤ '9') ∨ ('a' ≤ c ∧ c ≤ 'f') := by
  have h1 : (b >>> 4) &&& 0xF < 16 := by
    have := Nat.and_le_right (n := b >>> 4) (m := 0xF)
    omega
  have h2 : b &&& 0xF < 16 := by
    have := Nat.and_le_right (n := b) (m := 0xF)
    omega
  simp only [MD5.byteHex, List.mem_cons, List.not_mem_nil, or_false] at hc
  rcases hc with rfl | rfl
  · exact MD5.hexd_char_class _ h1
  · exact MD5.hexd_char_class _ h2

set_option maxRecDepth 4000 in
/-- Decoding the two hex characters of a byte below 256 gives the byte back. -/
theorem MD5.byteHex_decode_val : ∀ b : Nat, b < 256 →
    16 * hexVal (MD5.hexd.getD ((b >>> 4) &&& 0xF) '0') +
      hexVal (MD5.hexd.getD (b &&& 0xF) '0') = b := by decide

/-- Decoding the full hex rendering reproduces the byte list. -/
theorem MD5.hexDecode_byteHex (d : List Nat) (h : ∀ b ∈ d, b < 256) :
    hexDecodeChars (d.flatMap MD5.byteHex) = d := by
  induction d with
  | nil => rfl
  | cons b t ih =>
      have hb : b < 256 := h b (List.mem_cons_self b t)
      have ht : ∀ x ∈ t, x < 256 := fun x hx => h x (List.mem_cons_of_mem b hx)
      have hstep : (b :: t).flatMap MD5.byteHex =
          MD5.hexd.getD ((b >>> 4) &&& 0xF) '0' ::
            MD5.hexd.getD (b &&& 0xF) '0' :: t.flatMap MD5.byteHex := by
        simp [MD5.byteHex]
      rw [hstep, hexDecodeChars, MD5.byteHex_decode_val b hb, ih ht]

set_option maxRecDepth 100000 in
/-- C1: the claim states that the one-shot digest of the 3-byte input "abc"
renders in hex as 900150983cd24fb0d6963f7d28e17f72. The code instead produces
64d84ee0864bcb879327060ae5737959 on that input, because finalize appends one
zero byte too many before the length field, so the RFC 1321 test vector is
not reproduced. This theorem evaluates the code at the failing input. -/
theorem md5_c1_abc_vector_fails :
    MD5.hex (MD5.digest [97, 98, 99]) = "64d84ee0864bcb879327060ae5737959" ∧
    MD5.hex (MD5.digest [97, 98, 99]) ≠ "900150983cd24fb0d6963f7d28e17f72" := by
  constructor
  · decide
  · decide

/-- C2: the claim states that the padding built by finalize brings the count
of absorbed bytes plus padding to 56 mod 64, equivalently that the total
number of bytes absorbed including padding and length field is a multiple of
64. On the freshly reset state the code builds a 65-byte padding sequence
(0x80, then 56 zero bytes instead of the 55 the property requires, then 8
length bytes), so the total fed is 65, which is 1 mod 64, not 0. -/
theorem md5_c2_padding_misaligned :
    (MD5.pad MD5.reset).length = 65 ∧
    (MD5.reset.total_len + (MD5.pad MD5.reset).length) % 64 ≠ 0 ∧
    MD5.pad MD5.reset ≠ 0x80 :: (List.replicate 55 0 ++ MD5.lenBytes 0) := by
  refine ⟨by decide, by decide, by decide⟩

set_option maxRecDepth 100000 in
/-- C3: finalize on a freshly initialized engine with zero bytes absorbed
returns a 16-byte digest whose hex rendering is
d41d8cd98f00b204e9800998ecf8427e. (This holds even though the padding is
built one zero byte too long: for the empty message the first 64 padding
bytes coincide with the correct padded block, and the spurious 65th byte is
left in the buffer and discarded by the final reset.) -/
theorem md5_c3_empty_digest :
    (MD5.finalize MD5.reset).1.length = 16 ∧
    MD5.hex (MD5.finalize MD5.reset).1 = "d41d8cd98f00b204e9800998ecf8427e" := by
  constructor
  · decide
  · decide

/-- C4: for every byte sequence x and every way of splitting x into
contiguous pieces, feeding the pieces through successive update calls from
the initial state leaves the engine in exactly the same state as a single
update of x, and hence yields the same finalize digest. -/
theorem md5_c4_chunking_invariance (x : List Nat) (pieces : List (List Nat))
    (h : pieces.flatten = x) :
    List.foldl MD5.update MD5.reset pieces = MD5.update MD5.reset x ∧
    (MD5.finalize (List.foldl MD5.update MD5.reset pieces)).1 =
      (MD5.finalize (MD5.update MD5.reset x)).1 := by
  have h1 : List.foldl MD5.update MD5.reset pieces = MD5.update MD5.reset x := by
    rw [← h]
    exact MD5.foldl_update pieces MD5.reset (by decide) (by decide)
  exact ⟨h1, by rw [h1]⟩

/-- Witness for C4 at a concrete split of the three-byte input. -/
theorem md5_c4_chunking_invariance_witness :
    List.foldl MD5.update MD5.reset [[1], [2, 3]] = MD5.update MD5.reset [1, 2, 3] :=
  (md5_c4_chunking_invariance [1, 2, 3] [[1], [2, 3]] (by decide)).1

/-- C5: after finalize returns, the engine state (accumulators, total length,
pending buffer) equals the freshly reset initial state, so the next
computation behaves as on a fresh engine. -/
theorem md5_c5_finalize_resets (s : MD5State) : (MD5.finalize s).2 = MD5.reset := rfl

/-- C6: in every state reachable between public calls, the pending buffer
length lies in [0, 63]; it never rests at 64. -/
theorem md5_c6_buffer_bound (s : MD5State) (h : Reachable s) :
    s.buffer.length ≤ 63 := by
  have := MD5.reach_inv s h
  omega

/-- Witness for C6 at a concrete reachable state. -/
theorem md5_c6_buffer_bound_witness :
    (MD5.update MD5.reset [1, 2, 3]).buffer.length ≤ 63 :=
  md5_c6_buffer_bound _ (Reachable.update MD5.reset [1, 2, 3] Reachable.init)

/-- C7 counterexample: total_len is a uint64_t and wraps modulo 2^64, so an
update call does not always increment it by exactly the input length: after
absorbing 2^64 zero bytes from the initial state, total_len is 0, not 2^64. -/
theorem md5_c7_total_len_counterexample :
    (MD5.update MD5.reset (List.replicate (2 ^ 64) 0)).total_len ≠
      (List.replicate (2 ^ 64) 0).length := by
  rw [MD5.update_total_len]
  simp only [List.length_replicate]
  show (MD5.reset.total_len + 2 ^ 64) % 2 ^ 64 ≠ 2 ^ 64
  have h0 : MD5.reset.total_len = 0 := rfl
  rw [h0, Nat.zero_add, Nat.mod_self]
  exact (Nat.two_pow_pos 64).ne

/-- C7 amended: every update sets total_len to (total_len + len(bytes)) mod
2^64, so in every state reachable between public calls total_len equals the
number of raw input bytes fed since the last reset or finalize, reduced mod
2^64; padding fed inside finalize never survives into a rest state. -/
theorem md5_c7_total_len_mod (s : MD5State) (n : Nat) (h : ReachableCount s n)
    (bs : List Nat) :
    s.total_len = n % 2 ^ 64 ∧
    (MD5.update s bs).total_len = (n + bs.length) % 2 ^ 64 := by
  have key : s.total_len = n % 2 ^ 64 := by
    induction h with
    | init => rfl
    | update s n bs _ ih => rw [MD5.update_total_len, ih, Nat.mod_add_mod]
    | finalize s n _ _ => rfl
  refine ⟨key, ?_⟩
  rw [MD5.update_total_len, key, Nat.mod_add_mod]

/-- Witness for C7 at a concrete reachable state and input. -/
theorem md5_c7_total_len_mod_witness :
    (MD5.update MD5.reset [9]).total_len = (0 + [9].length) % 2 ^ 64 :=
  (md5_c7_total_len_mod MD5.reset 0 ReachableCount.init [9]).2

/-- C8: for every 16-byte digest (entries below 256), the hex rendering has
exactly 32 characters, each a lowercase hexadecimal character, and decoding
it byte-by-byte reproduces the digest exactly. -/
theorem md5_c8_hex_roundtrip (d : List Nat) (h16 : d.length = 16)
    (hb : ∀ b ∈ d, b < 256) :
    (MD5.hex d).length = 32 ∧
    (∀ c ∈ (MD5.hex d).data, ('0' ≤ c ∧ c ≤ '9') ∨ ('a' ≤ c ∧ c ≤ 'f')) ∧
    hexDecode (MD5.hex d) = d := by
  refine ⟨?_, ?_, ?_⟩
  · show (d.flatMap MD5.byteHex).length = 32
    rw [MD5.length_hex_chars, h16]
  · intro c hc
    have hc2 : c ∈ d.flatMap MD5.byteHex := hc
    obtain ⟨b, _, hcb⟩ := List.mem_flatMap.mp hc2
    exact MD5.byteHex_char_class b c hcb
  · show hexDecodeChars (d.flatMap MD5.byteHex) = d
    exact MD5.hexDecode_byteHex d hb

/-- Witness for C8 at a concrete 16-byte digest. -/
theorem md5_c8_hex_roundtrip_witness :
    hexDecode (MD5.hex (List.range 16)) = List.range 16 :=
  (md5_c8_hex_roundtrip (List.range 16) (by decide) (by decide)).2.2

/-- C9: in every reachable state the pending buffer holds at most 63 bytes,
so the padding sequence finalize builds has length at most 72, within the
128-byte pad array of the C++ code, and the subsequent update reads only
those initialized bytes. -/
theorem md5_c9_pad_len_bound (s : MD5State) (h : Reachable s) :
    (MD5.pad s).length ≤ 72 := by
  have hb := (MD5.reach_inv s h).1
  simp only [MD5.pad, MD5.lenBytes, List.length_cons, List.length_append,
    List.length_replicate, List.length_map, List.length_range]
  split <;> omega

/-- Witness for C9 at the initial state. -/
theorem md5_c9_pad_len_bound_witness : (MD5.pad MD5.reset).length ≤ 72 :=
  md5_c9_pad_len_bound MD5.reset Reachable.init

set_option maxRecDepth 2000 in
/-- C10: all 64 entries of the shift table S lie in [4, 23], hence in
[1, 31], so both shifts performed by rotl are on amounts strictly between 0
and 32 for every round of every block. -/
theorem md5_c10_shift_bounds (i : Nat) (h : i < 64) :
    4 ≤ MD5.S.getD i 0 ∧ MD5.S.getD i 0 ≤ 23 ∧
    1 ≤ MD5.S.getD i 0 ∧ MD5.S.getD i 0 ≤ 31 := by
  revert i
  decide

/-- Witness for C10 at round 0. -/
theorem md5_c10_shift_bounds_witness :
    4 ≤ MD5.S.getD 0 0 ∧ MD5.S.getD 0 0 ≤ 23 ∧
    1 ≤ MD5.S.getD 0 0 ∧ MD5.S.getD 0 0 ≤ 31 :=
  md5_c10_shift_bounds 0 (by decide)
